import Mathlib

/-!
Verification of the `rust-heart-dll` ECG signal generator.

The development shallowly embeds the Rust sources (`lib.rs`, `noisegen.rs`,
`wrappers.rs`) into Lean:

* `u64` values become `ℕ`; the `i128` intermediate arithmetic of the segment
  functions becomes `ℤ` (no overflow is possible there for `u64` inputs).
* `f64` values are idealised as real numbers.  A computation that can produce
  a non-finite `f64` (NaN or an infinity, which in this code arises exactly
  from a division whose divisor is the cast of the integer `0`), or that
  panics (an integer division by zero), is modelled as an `Option ℝ` whose
  `none` marks the undefined result.  Finite-real rounding and overflow are
  idealised away; the claims under study only distinguish finite values from
  non-finite/undefined ones.
* A finite `f64` times or plus a non-finite one is never finite, so `none`
  propagates through `fAdd` and through `Option.map` of a multiplication.
* `x as u64` applied to a finite `f64` truncates toward zero and saturates
  at `0` for negative inputs; for the (nonnegative-relevant) values here this
  is `Int.toNat ∘ Int.floor`.
* Locks are modelled as never poisoned; the `Err` branches of `lock()` are
  dead code under that assumption and are noted where they occur.
-/

namespace RustHeart

/-- Addition of two (possibly non-finite) `f64` values: the sum of two finite
reals is finite, and any sum involving a non-finite operand is non-finite. -/
def fAdd : Option ℝ → Option ℝ → Option ℝ
  | some x, some y => some (x + y)
  | _, _ => none

/-- The Rust cast `x as u64` for a finite `f64` value `x`: truncation toward
zero, saturating at `0` for negative inputs (saturation at `u64::MAX` is
idealised away). -/
noncomputable def f64_to_u64 (x : ℝ) : ℕ := (Int.floor x).toNat

/-- From `actual_thread_wait_time` (lib.rs:28-39): the requested rate clamped
to the 1000 Hz ceiling (`if actual_baud > 1000 { actual_baud = 1000 }`). -/
def actual_baud (freq : ℕ) : ℕ := if freq > 1000 then 1000 else freq

/-- Source `actual_thread_wait_time` (lib.rs:28-39).  Returns
`[1000/actual_baud, actual_baud]`.  The `u64` division `1000/actual_baud`
panics when `actual_baud = 0` (i.e. `freq = 0`), modelled as `none`. -/
def actual_thread_wait_time (freq : ℕ) : Option (List ℕ) :=
  if actual_baud freq = 0 then none
  else some [1000 / actual_baud freq, actual_baud freq]

/- The experimentally obtained amplitude multipliers (lib.rs:50-56). -/
namespace WaveAmps

noncomputable def PWAVE : ℝ := 0.15

noncomputable def QWAVE : ℝ := 0.0156

noncomputable def RWAVE : ℝ := 1.0

noncomputable def SWAVE : ℝ := 0.1563

noncomputable def TWAVE : ℝ := 0.2188

end WaveAmps

/-- Source `triangle` (lib.rs:268-281).  `peak = duration / 2` (integer division);
`gain = ampl / peak as f64` is non-finite exactly when `peak = 0` (for any
finite `ampl`, including `ampl = 0`, where it is NaN), hence the `Option`.
Outside `[tick_begin, tick_begin + duration]` the literal `0.0` is returned.
Inside, the `i128` tent value `-(tick_now - peak_tick).abs() + peak` is cast
to `f64` and multiplied by the gain; a finite value times a non-finite gain
is never finite, matching `Option.map`. -/
noncomputable def triangle (tick_now tick_begin duration : ℕ) (ampl : ℝ) : Option ℝ :=
  let peak := duration / 2
  let peak_tick := tick_begin + peak
  let gain : Option ℝ := if peak = 0 then none else some (ampl / (peak : ℝ))
  if tick_now < tick_begin ∨ tick_now > tick_begin + duration then some 0
  else gain.map (fun g => ((-|(tick_now : ℤ) - (peak_tick : ℤ)| + (peak : ℤ) : ℤ) : ℝ) * g)

/-- Source `second_order` (lib.rs:291-302).  `a = duration * duration / 4` (integer
arithmetic); `gain = ampl / a as f64` is non-finite exactly when `a = 0`.
Outside the window the literal `0.0` is returned; inside, the parabola value
`-(d * d) + a` (with `d = tick_now - center_tick` over `i128`) is cast and
multiplied by the gain. -/
noncomputable def second_order (tick_now tick_begin duration : ℕ) (ampl : ℝ) : Option ℝ :=
  let a := duration * duration / 4
  let center_tick := tick_begin + duration / 2
  let gain : Option ℝ := if a = 0 then none else some (ampl / (a : ℝ))
  if tick_now < tick_begin ∨ tick_now > tick_begin + duration then some 0
  else gain.map (fun g =>
    ((-(((tick_now : ℤ) - (center_tick : ℤ)) * ((tick_now : ℤ) - (center_tick : ℤ))) + (a : ℤ) : ℤ) : ℝ) * g)

/-- The closed set of noise generators (noisegen.rs): the `MainsNoise` and
`RandomNoise` structs implementing the `Noise` trait, with their fields. -/
inductive Noise where
  | MainsNoise (amplitude : ℝ) (frequency : ℕ) (tick_shift : ℕ)
  | RandomNoise (amplitude : ℝ)

/-- Source `get_tick_noise` (noisegen.rs:32-46 and 59-63).  For `MainsNoise`, the
`u64` division `_tick_freq / self.frequency` panics when `frequency = 0`
(modelled `none`); a zero `wave_len` is guarded to `0.0`; otherwise the sine
of the wave position in radians is scaled by the amplitude.  For
`RandomNoise`, `random_range(0.0..amplitude)` draws a fresh value each call;
the draw is supplied by the oracle argument `rng` (its `[0, amplitude)`
range is not needed by any property proved here). -/
noncomputable def get_tick_noise (rng : ℝ) : Noise → ℕ → ℕ → Option ℝ
  | Noise.MainsNoise amplitude frequency tick_shift, current_tick, tick_freq =>
    if frequency = 0 then none
    else
      let wave_len := tick_freq / frequency
      if wave_len = 0 then some 0
      else
        let current_wave_point_tick := current_tick % wave_len + tick_shift
        some (Real.sin ((current_wave_point_tick : ℝ) / (wave_len : ℝ) * 2 * Real.pi) * amplitude)
  | Noise.RandomNoise _, _, _ => some rng

/-- Source `SimpleHeart::calculate_noise` (lib.rs:239-246): sum the tick noise of
every attached generator, starting from `0.0`, in list order.  The oracle
`rng` supplies one random draw per attached generator. -/
noncomputable def calculate_noise (rng : ℕ → ℝ) (noises : List Noise)
    (current_tick tick_freq : ℕ) : Option ℝ :=
  noises.enum.foldl (fun acc p => fAdd acc (get_tick_noise (rng p.1) p.2 current_tick tick_freq))
    (some 0)

/-- The `SimpleHeart` struct (lib.rs:67-94).  The `Arc<Mutex<...>>` cells are
flattened into plain fields (locks are modelled as never poisoned). -/
structure SimpleHeart where
  active : Bool
  amplitude : ℝ
  total_r_to_r : ℝ
  p_duration : ℝ
  p_to_q_interval : ℝ
  q_duration : ℝ
  r_duration : ℝ
  s_duration : ℝ
  s_to_t_interval : ℝ
  t_duration : ℝ
  attached_noises : List Noise
  output_value : List ℝ

/-- Source `SimpleHeart::new` (lib.rs:97-120).  In the source a `bpm` of `0` makes
`total_r_to_r` the `f64` infinity and the derived durations non-finite; the
real-valued idealisation (where `60 / 0 = 0`) is only ever used here for the
construction invariants `active = false`, empty noise list, empty buffer,
none of which depend on the numeric fields. -/
noncomputable def SimpleHeart.new (bpm : ℕ) (amplitude : ℝ) : SimpleHeart :=
  let total_r_to_r : ℝ := 60 / (bpm : ℝ)
  let qrs_duration : ℝ := 0.25 * Real.sqrt total_r_to_r - 0.16 * total_r_to_r - 0.02
  { active := false
    amplitude := amplitude
    total_r_to_r := total_r_to_r
    p_duration := 0.37 * Real.sqrt total_r_to_r - 0.22 * total_r_to_r - 0.06
    p_to_q_interval := 0.33 * Real.sqrt total_r_to_r - 0.18 * total_r_to_r - 0.08
    q_duration := qrs_duration * 0.23
    r_duration := qrs_duration * 0.42
    s_duration := qrs_duration * 0.35
    s_to_t_interval := -0.09 * Real.sqrt total_r_to_r + 0.13 * total_r_to_r + 0.04
    t_duration := 1.06 * Real.sqrt total_r_to_r - 0.51 * total_r_to_r - 0.33
    attached_noises := []
    output_value := [] }

/-- Source `SimpleHeart::return_values` (lib.rs:226-236): clone the buffer, reset it
to `vec![]`, return the clone.  The result pairs the returned samples with
the updated heart.  (The `Err(_) => vec![]` poisoned-lock branch is dead
under the never-poisoned lock model.) -/
def SimpleHeart.return_values (h : SimpleHeart) : List ℝ × SimpleHeart :=
  (h.output_value, { h with output_value := [] })

/-- Source `SimpleHeart::attach_noise` (lib.rs:249-252): `Vec::push` onto the
attached noise list. -/
def SimpleHeart.attach_noise (h : SimpleHeart) (noise : Noise) : SimpleHeart :=
  { h with attached_noises := h.attached_noises ++ [noise] }

/-- Source `SimpleHeart::reset_noise` (lib.rs:255-258): replace the noise list with
a fresh empty one. -/
def SimpleHeart.reset_noise (h : SimpleHeart) : SimpleHeart :=
  { h with attached_noises := [] }

/-- The guarded buffer append of the tick loop (lib.rs:211-214):
`if out_val.len() < 5000 { out_val.push(...) }`. -/
def push_output (buf : List ℝ) (x : ℝ) : List ℝ :=
  if buf.length < 5000 then buf ++ [x] else buf

/-- Source `simple_heart_read` (wrappers.rs:45-57).  A handle is `none` (null) or a
heart; a null handle yields an empty sample sequence, otherwise
`return_values` drains the buffer.  (The poisoned-lock `Err` branch is dead
under the never-poisoned lock model.) -/
def simple_heart_read (ptr : Option SimpleHeart) : List ℝ × Option SimpleHeart :=
  match ptr with
  | none => ([], none)
  | some heart =>
    let drained := heart.return_values
    (drained.1, some drained.2)

/-- The `NoiseTypes` enum (wrappers.rs:59-63). -/
inductive NoiseTypes where
  | MainsNoise
  | RandomNoise

/-- Source `simple_heart_add_noise` (wrappers.rs:65-82): null handle is a no-op;
otherwise construct `MainsNoise::new(amplitude, freq)` (tick shift `0`) or
`RandomNoise::new(amplitude)` and attach it.  No validation of `freq` is
performed. -/
def simple_heart_add_noise (ptr : Option SimpleHeart) (noise_type : NoiseTypes)
    (amplitude : ℝ) (freq : ℕ) : Option SimpleHeart :=
  match ptr with
  | none => none
  | some heart =>
    let inited_noise : Noise :=
      match noise_type with
      | NoiseTypes.MainsNoise => Noise.MainsNoise amplitude freq 0
      | NoiseTypes.RandomNoise => Noise.RandomNoise amplitude
    some (heart.attach_noise inited_noise)

/-- Source `simple_heart_reset_noise` (wrappers.rs:84-95). -/
def simple_heart_reset_noise (ptr : Option SimpleHeart) : Option SimpleHeart :=
  match ptr with
  | none => none
  | some heart => some heart.reset_noise

/-- The five-lobe waveform sum computed inline in the tick loop
(lib.rs:186-199): `output = 0.0`, then P (parabolic), Q, R, S (triangles),
T (parabolic) are added, with `wave_delay` accumulating the tick-converted
offsets exactly as in the source. -/
noncomputable def wave_output (current_tick this_beat_start_tick rate : ℕ)
    (p_duration p_to_q_interval q_duration r_duration s_duration s_to_t_interval t_duration : ℝ) :
    Option ℝ :=
  let wave_delay0 := this_beat_start_tick
  let o1 := second_order current_tick wave_delay0 (f64_to_u64 (p_duration * (rate : ℝ))) WaveAmps.PWAVE
  let wave_delay1 := wave_delay0 + f64_to_u64 ((p_duration + p_to_q_interval) * (rate : ℝ))
  let o2 := triangle current_tick wave_delay1 (f64_to_u64 (q_duration * (rate : ℝ))) (-WaveAmps.QWAVE)
  let wave_delay2 := wave_delay1 + f64_to_u64 (q_duration * (rate : ℝ))
  let o3 := triangle current_tick wave_delay2 (f64_to_u64 (r_duration * (rate : ℝ))) WaveAmps.RWAVE
  let wave_delay3 := wave_delay2 + f64_to_u64 (r_duration * (rate : ℝ))
  let o4 := triangle current_tick wave_delay3 (f64_to_u64 (s_duration * (rate : ℝ))) (-WaveAmps.SWAVE)
  let wave_delay4 := wave_delay3 + f64_to_u64 ((s_duration + s_to_t_interval) * (rate : ℝ))
  let o5 := second_order current_tick wave_delay4 (f64_to_u64 (t_duration * (rate : ℝ))) WaveAmps.TWAVE
  fAdd (fAdd (fAdd (fAdd (fAdd (some 0) o1) o2) o3) o4) o5

/-- The beat-start tick used when the sample at a given tick is computed
(lib.rs:181-183): carried from the previous iteration and reset to the
current tick whenever `current_tick - this_beat_start_tick >= tick_r_to_r`.
Both the initial value and the tick-0 check leave it at `0`. -/
def beatStartAt (tick_r_to_r : ℕ) : ℕ → ℕ
  | 0 => 0
  | t + 1 =>
    if tick_r_to_r ≤ t + 1 - beatStartAt tick_r_to_r t then t + 1
    else beatStartAt tick_r_to_r t

/-- One full tick-loop sample (lib.rs:160-215) as a function of the snapshot
state: the noise sum is computed with the raw `freq` argument of
`start_beat` (lib.rs:175), the waveform with `timings[1]` (the clamped
rate), the lobe sum is scaled by the captured `amplitude`, and the noise is
added to the scaled value.  When `freq = 0` the spawned thread panics in
`actual_thread_wait_time` before producing any sample (`none`). -/
noncomputable def engineTick (rng : ℕ → ℝ) (noises : List Noise) (amplitude : ℝ)
    (p_duration p_to_q_interval q_duration r_duration s_duration s_to_t_interval t_duration : ℝ)
    (freq this_beat_start_tick current_tick : ℕ) : Option ℝ :=
  match actual_thread_wait_time freq with
  | none => none
  | some timings =>
    let output_noise := calculate_noise rng noises current_tick freq
    let output := wave_output current_tick this_beat_start_tick (timings.getD 1 0)
      p_duration p_to_q_interval q_duration r_duration s_duration s_to_t_interval t_duration
    fAdd (output.map (fun x => x * amplitude)) output_noise

/-- The noise-free scaled sample at a given tick for a fixed profile and
clamped sampling rate, with the beat-start tick evolved from tick `0` as in
the loop; `tick_r_to_r = (total_r_to_r * timings[1] as f64) as u64`
(lib.rs:178). -/
noncomputable def noiseFreeSample (amplitude : ℝ)
    (p_duration p_to_q_interval q_duration r_duration s_duration s_to_t_interval t_duration : ℝ)
    (total_r_to_r : ℝ) (rate t : ℕ) : Option ℝ :=
  (wave_output t (beatStartAt (f64_to_u64 (total_r_to_r * (rate : ℝ))) t) rate
    p_duration p_to_q_interval q_duration r_duration s_duration s_to_t_interval t_duration).map
    (fun x => x * amplitude)

/-- Follows the words of the specification (claim C4) rather than the code:
the waveform value is the sum of five lobes P (parabolic, positive),
Q (triangle, negative), R (triangle, positive), S (triangle, negative),
T (parabolic, positive) placed sequentially from the beat-start tick, each
duration converted to ticks by truncating `duration_seconds * actual_rate`
with `actual_rate = min freq 1000`; each lobe's start offset accumulates the
tick-converted durations and inter-wave intervals of the preceding lobes
(P duration plus P-to-Q interval before Q, Q duration before R, R duration
before S, S duration plus S-to-T interval before T); the five-lobe sum is
multiplied by the global amplitude and the noise sum is added to the
already-scaled value. -/
noncomputable def spec_tick_value (rng : ℕ → ℝ) (noises : List Noise) (amplitude : ℝ)
    (p_duration p_to_q_interval q_duration r_duration s_duration s_to_t_interval t_duration : ℝ)
    (freq beat_start t : ℕ) : Option ℝ :=
  let rate := min freq 1000
  let offsetP := beat_start
  let offsetQ := offsetP + f64_to_u64 ((p_duration + p_to_q_interval) * (rate : ℝ))
  let offsetR := offsetQ + f64_to_u64 (q_duration * (rate : ℝ))
  let offsetS := offsetR + f64_to_u64 (r_duration * (rate : ℝ))
  let offsetT := offsetS + f64_to_u64 ((s_duration + s_to_t_interval) * (rate : ℝ))
  let lobes :=
    fAdd (fAdd (fAdd (fAdd (fAdd (some 0)
      (second_order t offsetP (f64_to_u64 (p_duration * (rate : ℝ))) WaveAmps.PWAVE))
      (triangle t offsetQ (f64_to_u64 (q_duration * (rate : ℝ))) (-WaveAmps.QWAVE)))
      (triangle t offsetR (f64_to_u64 (r_duration * (rate : ℝ))) WaveAmps.RWAVE))
      (triangle t offsetS (f64_to_u64 (s_duration * (rate : ℝ))) (-WaveAmps.SWAVE)))
      (second_order t offsetT (f64_to_u64 (t_duration * (rate : ℝ))) WaveAmps.TWAVE)
  fAdd (lobes.map (fun x => x * amplitude)) (calculate_noise rng noises t freq)

/-- States of a heart reachable through the operations of the library:
construction, the start flag flip, a tick-loop buffer append, a drain, and
the two noise mutations. -/
inductive Reach : SimpleHeart → Prop where
  | new_heart : ∀ (bpm : ℕ) (amp : ℝ), Reach (SimpleHeart.new bpm amp)
  | start : ∀ h, Reach h → Reach { h with active := true }
  | tick : ∀ h x, Reach h → Reach { h with output_value := push_output h.output_value x }
  | read : ∀ h, Reach h → Reach h.return_values.2
  | attach : ∀ h n, Reach h → Reach (h.attach_noise n)
  | reset : ∀ h, Reach h → Reach h.reset_noise

/-! Helper lemmas shared by the claim theorems. -/

theorem actual_baud_eq_min (freq : ℕ) : actual_baud freq = min freq 1000 := by
  unfold actual_baud
  split <;> omega

theorem actual_baud_ne_zero {freq : ℕ} (h : 0 < freq) : actual_baud freq ≠ 0 := by
  unfold actual_baud
  split <;> omega

theorem actual_thread_wait_time_of_pos {freq : ℕ} (h : 0 < freq) :
    actual_thread_wait_time freq = some [1000 / actual_baud freq, actual_baud freq] := by
  unfold actual_thread_wait_time
  simp [actual_baud_ne_zero h]

theorem triangle_shift (T tick_now tick_begin duration : ℕ) (ampl : ℝ) :
    triangle (tick_now + T) (tick_begin + T) duration ampl
      = triangle tick_now tick_begin duration ampl := by
  simp only [triangle]
  by_cases hin : tick_now < tick_begin ∨ tick_now > tick_begin + duration
  · rw [if_pos (by omega), if_pos hin]
  · rw [if_neg (by omega), if_neg hin]
    congr 1
    funext g
    have hi : ((tick_now + T : ℕ) : ℤ) - ((tick_begin + T + duration / 2 : ℕ) : ℤ)
        = ((tick_now : ℕ) : ℤ) - ((tick_begin + duration / 2 : ℕ) : ℤ) := by
      push_cast
      ring
    rw [hi]

theorem second_order_shift (T tick_now tick_begin duration : ℕ) (ampl : ℝ) :
    second_order (tick_now + T) (tick_begin + T) duration ampl
      = second_order tick_now tick_begin duration ampl := by
  simp only [second_order]
  by_cases hin : tick_now < tick_begin ∨ tick_now > tick_begin + duration
  · rw [if_pos (by omega), if_pos hin]
  · rw [if_neg (by omega), if_neg hin]
    congr 1
    funext g
    have hi : ((tick_now + T : ℕ) : ℤ) - ((tick_begin + T + duration / 2 : ℕ) : ℤ)
        = ((tick_now : ℕ) : ℤ) - ((tick_begin + duration / 2 : ℕ) : ℤ) := by
      push_cast
      ring
    rw [hi]

theorem wave_output_shift (T t b rate : ℕ)
    (p p2q q r s s2t td : ℝ) :
    wave_output (t + T) (b + T) rate p p2q q r s s2t td
      = wave_output t b rate p p2q q r s s2t td := by
  simp only [wave_output]
  simp only [show ∀ x c : ℕ, x + T + c = x + c + T from fun x c => by omega]
  rw [triangle_shift, triangle_shift, triangle_shift, second_order_shift, second_order_shift]

theorem beatStartAt_eq {T : ℕ} (hT : 0 < T) : ∀ t, beatStartAt T t = t - t % T := by
  intro t
  induction t with
  | zero => simp [beatStartAt]
  | succ t ih =>
    have h1 : t % T < T := Nat.mod_lt _ hT
    have h2 : T * (t / T) + t % T = t := Nat.div_add_mod t T
    unfold beatStartAt
    rw [ih]
    rcases Nat.lt_or_ge (t % T + 1) T with hlt | hge
    · have hmod : (t + 1) % T = t % T + 1 := by
        have ht1 : t + 1 = T * (t / T) + (t % T + 1) := by omega
        rw [ht1, Nat.mul_add_mod, Nat.mod_eq_of_lt hlt]
      rw [if_neg (by omega)]
      omega
    · have heq : t % T + 1 = T := by omega
      have hmod : (t + 1) % T = 0 := by
        have ht1 : t + 1 = T * (t / T + 1) := by
          rw [Nat.mul_add, Nat.mul_one]
          omega
        rw [ht1, Nat.mul_mod_right]
      rw [if_pos (by omega)]
      omega

theorem beatStartAt_add {T : ℕ} (hT : 0 < T) (t : ℕ) :
    beatStartAt T (t + T) = beatStartAt T t + T := by
  rw [beatStartAt_eq hT, beatStartAt_eq hT, Nat.add_mod_right]
  have := Nat.mod_le t T
  omega

/-! Claim theorems. -/

/-- Claim C1: a read (`return_values`, exposed as `simple_heart_read`)
returns exactly the buffer contents — the samples appended (at the end, in
production order) since the previous drain — and leaves the buffer empty;
a read on an empty buffer, on a freshly created engine, or through a null
handle returns an empty sequence. -/
theorem read_drains_exact :
    (∀ h : SimpleHeart, h.return_values = (h.output_value, { h with output_value := [] }))
    ∧ (∀ (buf : List ℝ) (x : ℝ), push_output buf x = buf ++ [x] ∨ push_output buf x = buf)
    ∧ (simple_heart_read none = ([], none))
    ∧ (∀ (bpm : ℕ) (amp : ℝ),
        (SimpleHeart.new bpm amp).output_value = []
        ∧ (simple_heart_read (some (SimpleHeart.new bpm amp))).1 = []) := by
  refine ⟨fun h => rfl, ?_, rfl, ?_⟩
  · intro buf x
    unfold push_output
    split
    · exact Or.inl rfl
    · exact Or.inr rfl
  · intro bpm amp
    exact ⟨rfl, rfl⟩

/-- Claim C2: every reachable engine state holds at most 5000 buffered
samples; the tick loop appends only when the length is strictly below 5000
and leaves a full buffer unchanged. -/
theorem output_buffer_bounded :
    (∀ h : SimpleHeart, Reach h → h.output_value.length ≤ 5000)
    ∧ (∀ (buf : List ℝ) (x : ℝ), buf.length < 5000 → push_output buf x = buf ++ [x])
    ∧ (∀ (buf : List ℝ) (x : ℝ), 5000 ≤ buf.length → push_output buf x = buf) := by
  refine ⟨?_, ?_, ?_⟩
  · intro h hr
    induction hr with
    | new_heart bpm amp => simp [SimpleHeart.new]
    | start h _ ih => exact ih
    | tick h x _ ih =>
      show (push_output h.output_value x).length ≤ 5000
      unfold push_output
      split
      · simp only [List.length_append, List.length_singleton]
        omega
      · exact ih
    | read h _ ih =>
      show ([] : List ℝ).length ≤ 5000
      simp
    | attach h n _ ih => exact ih
    | reset h _ ih => exact ih
  · intro buf x hlt
    unfold push_output
    rw [if_pos hlt]
  · intro buf x hge
    unfold push_output
    rw [if_neg (by omega)]

/-- Witness for claim C2 at concrete inputs: the fresh engine is reachable
and within bound; an empty buffer accepts an append; a full buffer of 5000
zeros drops the new sample unchanged. -/
theorem output_buffer_bounded_witness :
    (Reach (SimpleHeart.new 60 1) ∧ (SimpleHeart.new 60 1).output_value.length ≤ 5000)
    ∧ (([] : List ℝ).length < 5000 ∧ push_output [] 1 = [] ++ [1])
    ∧ (5000 ≤ (List.replicate 5000 (0 : ℝ)).length
        ∧ push_output (List.replicate 5000 (0 : ℝ)) 1 = List.replicate 5000 (0 : ℝ)) := by
  have h1 : Reach (SimpleHeart.new 60 1) := Reach.new_heart 60 1
  have h2 : ([] : List ℝ).length < 5000 := by norm_num
  have h3 : 5000 ≤ (List.replicate 5000 (0 : ℝ)).length := by
    rw [List.length_replicate]
  exact ⟨⟨h1, output_buffer_bounded.1 _ h1⟩, ⟨h2, output_buffer_bounded.2.1 _ _ h2⟩,
    ⟨h3, output_buffer_bounded.2.2 _ _ h3⟩⟩

/-- Counterexample to claim C3 as stated: at the single in-window tick of a
zero-duration segment (tick_now = tick_begin = 0, duration = 0,
amplitude = 1) neither segment function returns 0 — both produce a
non-finite value (`none`), because the gain divisor is zero. -/
theorem zero_duration_counterexample :
    triangle 0 0 0 (1 : ℝ) ≠ some 0 ∧ second_order 0 0 0 (1 : ℝ) ≠ some 0 := by
  constructor
  · simp [triangle]
  · simp [second_order]

/-- Claim C3 (amended): with duration = 0 and tick_now inside the segment
window (tick_now = tick_begin, the only in-window tick), both `triangle`
and `second_order` propagate a non-finite value (NaN, modelled `none`)
rather than returning 0, for every tick_begin and every amplitude: the
code does not special-case zero-duration segments. -/
theorem zero_duration_non_finite (tick_begin : ℕ) (ampl : ℝ) :
    triangle tick_begin tick_begin 0 ampl = none
      ∧ second_order tick_begin tick_begin 0 ampl = none := by
  constructor
  · simp [triangle]
  · simp [second_order]

/-- Claim C6: for every tick_now strictly outside the closed window
`[tick_begin, tick_begin + duration]` and all durations and amplitudes,
both segment functions return exactly 0. -/
theorem segments_zero_outside_window (tick_now tick_begin duration : ℕ) (ampl : ℝ)
    (h : tick_now < tick_begin ∨ tick_now > tick_begin + duration) :
    triangle tick_now tick_begin duration ampl = some 0
      ∧ second_order tick_now tick_begin duration ampl = some 0 := by
  constructor
  · simp only [triangle]
    rw [if_pos h]
  · simp only [second_order]
    rw [if_pos h]

/-- Witness for claim C6: tick 6 lies outside the window `[0, 5]` and both
segment functions return 0 there. -/
theorem segments_zero_outside_window_witness :
    ((6 : ℕ) < 0 ∨ (6 : ℕ) > 0 + 5)
    ∧ (triangle 6 0 5 (1 : ℝ) = some 0 ∧ second_order 6 0 5 (1 : ℝ) = some 0) := by
  have h : (6 : ℕ) < 0 ∨ (6 : ℕ) > 0 + 5 := by decide
  exact ⟨h, segments_zero_outside_window 6 0 5 1 h⟩

/-- Counterexample to claim C7 as stated: for the positive duration 1 the
claimed center tick is tick_begin + 1/2 = tick_begin, and both segment
functions return a non-finite value (`none`) there rather than the
amplitude 1, because peak = 1/2 = 0 and a = 1*1/4 = 0 make the gain
divisor zero. -/
theorem segment_peak_duration_one_counterexample :
    triangle (0 + 1 / 2) 0 1 (1 : ℝ) ≠ some 1
      ∧ second_order (0 + 1 / 2) 0 1 (1 : ℝ) ≠ some 1 := by
  constructor
  · simp [triangle]
  · simp [second_order]

/-- Claim C7 (amended): for every duration of at least 2 ticks (so that the
integer gain divisors peak = duration/2 and a = duration²/4 are nonzero)
and every amplitude, both segment functions evaluated at
tick_begin + duration/2 return exactly the amplitude argument (exact in the
real-valued idealisation; within floating-point tolerance in `f64`). -/
theorem segment_peak_amplitude (tick_begin duration : ℕ) (ampl : ℝ) (h : 2 ≤ duration) :
    triangle (tick_begin + duration / 2) tick_begin duration ampl = some ampl
      ∧ second_order (tick_begin + duration / 2) tick_begin duration ampl = some ampl := by
  have hpeak : duration / 2 ≠ 0 := by omega
  have hpeakR : ((duration / 2 : ℕ) : ℝ) ≠ 0 := Nat.cast_ne_zero.mpr hpeak
  have ha : duration * duration / 4 ≠ 0 := by
    have h4 : 4 ≤ duration * duration := by
      calc 4 = 2 * 2 := rfl
      _ ≤ duration * duration := Nat.mul_le_mul h h
    omega
  have haR : ((duration * duration / 4 : ℕ) : ℝ) ≠ 0 := Nat.cast_ne_zero.mpr ha
  constructor
  · simp only [triangle]
    rw [if_neg (by omega), if_neg hpeak, Option.map_some']
    congr 1
    rw [sub_self, abs_zero, neg_zero, zero_add, Int.cast_natCast, mul_comm,
      div_mul_cancel₀ _ hpeakR]
  · simp only [second_order]
    rw [if_neg (by omega), if_neg ha, Option.map_some']
    congr 1
    rw [sub_self, mul_zero, neg_zero, zero_add, Int.cast_natCast, mul_comm,
      div_mul_cancel₀ _ haR]

/-- Witness for claim C7 (amended) at duration 2, amplitude 1,
tick_begin 0: both segment functions return the amplitude at the center
tick 0 + 2/2 = 1. -/
theorem segment_peak_amplitude_witness :
    2 ≤ 2
    ∧ (triangle (0 + 2 / 2) 0 2 (1 : ℝ) = some 1
        ∧ second_order (0 + 2 / 2) 0 2 (1 : ℝ) = some 1) :=
  ⟨by decide, segment_peak_amplitude 0 2 1 (by decide)⟩

/-- Claim C8: for every positive requested frequency, the timing computation
yields the clamped rate `min freq 1000` and the sleep interval
`1000 / min freq 1000` milliseconds (so every `freq` above 1000 is clamped
to 1000).  The requested frequency 0 makes the source panic on the `u64`
division `1000 / 0`, so it is excluded — there the claimed formula itself
is undefined. -/
theorem timing_quantization (freq : ℕ) (h : 0 < freq) :
    actual_thread_wait_time freq = some [1000 / min freq 1000, min freq 1000] := by
  rw [actual_thread_wait_time_of_pos h, actual_baud_eq_min]

/-- Witness for claim C8 at the concrete requested frequency 1500, which is
clamped to 1000 with a 1 ms sleep. -/
theorem timing_quantization_witness :
    0 < 1500
    ∧ actual_thread_wait_time 1500 = some [1000 / min 1500 1000, min 1500 1000] :=
  ⟨by decide, timing_quantization 1500 (by decide)⟩

/-- Claim C10: `MainsNoise` evaluation is not total at the public interface:
`simple_heart_add_noise` with kind Mains and frequency 0 attaches (without
any validation) a `MainsNoise` whose every `get_tick_noise` call performs
the unguarded `u64` division `sampling_rate / 0` and therefore panics
(modelled `none`) instead of contributing 0 or any defined value. -/
theorem mains_zero_frequency_undefined :
    (∀ (rng amp : ℝ) (shift t rate : ℕ),
        get_tick_noise rng (Noise.MainsNoise amp 0 shift) t rate = none)
    ∧ (∀ (h : SimpleHeart) (amp : ℝ),
        simple_heart_add_noise (some h) NoiseTypes.MainsNoise amp 0
          = some { h with attached_noises := h.attached_noises ++ [Noise.MainsNoise amp 0 0] }) := by
  constructor
  · intro rng amp shift t rate
    simp [get_tick_noise]
  · intro h amp
    rfl

/-- Claim C4: for every positive requested frequency, the tick-loop sample
equals the specification's description: five lobes P (parabolic, positive),
Q (triangle, negative), R (triangle, positive), S (triangle, negative),
T (parabolic, positive) placed from the beat-start tick with accumulated
tick-converted offsets (P duration plus P-to-Q interval before Q, Q duration
before R, R duration before S, S duration plus S-to-T interval before T),
the five-lobe sum multiplied by the engine's global amplitude, and the noise
sum added to the already-scaled value. -/
theorem tick_waveform_matches_spec (rng : ℕ → ℝ) (noises : List Noise)
    (amplitude p p2q q r s s2t td : ℝ) (freq b t : ℕ) (h : 0 < freq) :
    engineTick rng noises amplitude p p2q q r s s2t td freq b t
      = spec_tick_value rng noises amplitude p p2q q r s s2t td freq b t := by
  have hw := actual_thread_wait_time_of_pos h
  rw [actual_baud_eq_min] at hw
  unfold engineTick
  rw [hw]
  rfl

/-- Witness for claim C4 at a concrete snapshot (frequency 500, beat start
0, tick 0, zero durations, no noise). -/
theorem tick_waveform_matches_spec_witness :
    0 < 500
    ∧ engineTick (fun _ => 0) [] 1 0 0 0 0 0 0 0 500 0 0
      = spec_tick_value (fun _ => 0) [] 1 0 0 0 0 0 0 0 500 0 0 :=
  ⟨by decide, tick_waveform_matches_spec (fun _ => 0) [] 1 0 0 0 0 0 0 0 500 0 0 (by decide)⟩

/-- Claim C5: for a fixed profile and sampling rate with
`ticks_per_beat = (total_r_to_r * rate) as u64` positive, the noise-free
composite waveform of the tick loop (whose beat-start tick resets to the
current tick exactly when `current_tick - beat_start_tick` reaches
`ticks_per_beat`) is periodic in the tick index with period
`ticks_per_beat`. -/
theorem waveform_periodic (amplitude p p2q q r s s2t td total_r_to_r : ℝ) (rate t : ℕ)
    (hT : 0 < f64_to_u64 (total_r_to_r * (rate : ℝ))) :
    noiseFreeSample amplitude p p2q q r s s2t td total_r_to_r rate
        (t + f64_to_u64 (total_r_to_r * (rate : ℝ)))
      = noiseFreeSample amplitude p p2q q r s s2t td total_r_to_r rate t := by
  unfold noiseFreeSample
  rw [beatStartAt_add hT, wave_output_shift]

/-- Witness for claim C5 with `total_r_to_r = 1` second and rate 10 Hz
(so ticks_per_beat = 10), amplitude 1, zero durations, at tick 0. -/
theorem waveform_periodic_witness :
    0 < f64_to_u64 ((1 : ℝ) * ((10 : ℕ) : ℝ))
    ∧ noiseFreeSample 1 0 0 0 0 0 0 0 1 10 (0 + f64_to_u64 ((1 : ℝ) * ((10 : ℕ) : ℝ)))
      = noiseFreeSample 1 0 0 0 0 0 0 0 1 10 0 := by
  have hp : 0 < f64_to_u64 ((1 : ℝ) * ((10 : ℕ) : ℝ)) := by
    norm_num [f64_to_u64]
  exact ⟨hp, waveform_periodic 1 0 0 0 0 0 0 0 1 10 0 hp⟩

/-- Claim C9: a MainsNoise source whose hum frequency is at least the
(positive) sampling rate supplied to `get_tick_noise` contributes exactly 0
on every tick: either `wave_len = rate / hum` is 0 and guarded, or in the
equality case `wave_len = 1` the sine of a whole number of turns is exactly
0; and within the tick loop (second conjunct) the rate supplied to the
noise sources is the engine's sampling frequency — the `freq` argument of
`start_beat` — while the waveform itself uses the clamped rate. -/
theorem mains_hum_silenced :
    (∀ (rng amp : ℝ) (f shift t rate : ℕ), 0 < rate → rate ≤ f →
        get_tick_noise rng (Noise.MainsNoise amp f shift) t rate = some 0)
    ∧ (∀ (rng : ℕ → ℝ) (noises : List Noise)
        (amplitude p p2q q r s s2t td : ℝ) (freq b t : ℕ), 0 < freq →
        engineTick rng noises amplitude p p2q q r s s2t td freq b t
          = fAdd ((wave_output t b (actual_baud freq) p p2q q r s s2t td).map
              (fun x => x * amplitude))
              (calculate_noise rng noises t freq)) := by
  constructor
  · intro rng amp f shift t rate h0 hle
    have hf : ¬f = 0 := by omega
    simp only [get_tick_noise, if_neg hf]
    rcases Nat.lt_or_ge rate f with hlt | hge
    · rw [if_pos (Nat.div_eq_of_lt hlt)]
    · have heq : rate = f := Nat.le_antisymm hle hge
      subst heq
      rw [Nat.div_self h0, if_neg (by omega)]
      congr 1
      have harg : ((t % 1 + shift : ℕ) : ℝ) / ((1 : ℕ) : ℝ) * 2 * Real.pi
          = ((2 * shift : ℕ) : ℝ) * Real.pi := by
        rw [Nat.mod_one]
        push_cast
        ring
      rw [harg, Real.sin_nat_mul_pi, zero_mul]
  · intro rng noises amplitude p p2q q r s s2t td freq b t h
    unfold engineTick
    rw [actual_thread_wait_time_of_pos h]
    rfl

/-- Witness for claim C9: a 60 Hz mains hum sampled at 60 Hz (the equality
case) and at 50 Hz (the guarded case) both contribute exactly 0 at tick 7;
the tick-loop conjunct instantiated at frequency 500. -/
theorem mains_hum_silenced_witness :
    (0 < 60 ∧ 60 ≤ 60 ∧ get_tick_noise 0 (Noise.MainsNoise 1 60 3) 7 60 = some 0)
    ∧ (0 < 50 ∧ 50 ≤ 60 ∧ get_tick_noise 0 (Noise.MainsNoise 1 60 3) 7 50 = some 0)
    ∧ (0 < 500
        ∧ engineTick (fun _ => 0) [Noise.MainsNoise 1 60 3] 1 0 0 0 0 0 0 0 500 0 7
          = fAdd ((wave_output 7 0 (actual_baud 500) 0 0 0 0 0 0 0).map (fun x => x * 1))
              (calculate_noise (fun _ => 0) [Noise.MainsNoise 1 60 3] 7 500)) := by
  refine ⟨⟨by decide, by decide, mains_hum_silenced.1 0 1 60 3 7 60 (by decide) (by decide)⟩,
    ⟨by decide, by decide, mains_hum_silenced.1 0 1 60 3 7 50 (by decide) (by decide)⟩,
    by decide, mains_hum_silenced.2 (fun _ => 0) [Noise.MainsNoise 1 60 3] 1 0 0 0 0 0 0 0 500 0 7 (by decide)⟩

end RustHeart
